import Mathlib

/-!
Verification development for the `AdAuctionFHE` contract
(`contracts/AdAuction.sol` of the AdAuction_FHE repository).

Shallow embedding choices:
* Addresses, timestamps, batch ids and request ids are `Nat` (the contract
  never relies on 256-bit wrap-around for these).
* `euint32` handles are modelled as the symbolic expression tree `EExpr`:
  a `leaf` is an externally supplied ciphertext handle, and `select a b c1 c2`
  is the handle produced by `FHE.select(a, b, FHE.ge(c1, c2))`.  In this
  contract every `ebool` is a `ge` comparison consumed directly by `select`
  or by `cleartext()`, so the comparison operands are stored inline in the
  `select` node.  Two handles are equal iff the expressions are equal, which
  models the fact that every homomorphic operation returns a fresh handle
  derived deterministically from the operation and its operands.
* Decryption is an evaluation `evalE` under a valuation `val : Nat → Nat`
  giving the 32-bit cleartext of each leaf handle.
* `keccak256(abi.encode(cts, address(this)))` is modelled injectively as
  `some cts` (the contract address is a per-instance constant and is
  dropped); the default `bytes32(0)` stored in an untouched mapping slot is
  `none`.  Collisions of keccak are assumed not to occur.
* Solidity `revert` (including `Panic` for out-of-bounds indexing) is an
  `Except.error`; a reverted call leaves the state unchanged and emits
  nothing, which the step function realises by discarding the error branch.
-/

/-- Symbolic `euint32` ciphertext handle.  `select a b c1 c2` stands for
`FHE.select(a, b, FHE.ge(c1, c2))`, i.e. the value of `a` if `c1 ≥ c2`
and the value of `b` otherwise. -/
inductive EExpr : Type where
  | leaf (id : Nat)
  | select (a b c1 c2 : EExpr)
deriving DecidableEq, Repr

/-- Cleartext value of a ciphertext under a leaf valuation (32-bit). -/
def evalE (val : Nat → Nat) : EExpr → Nat
  | .leaf i => val i % 2 ^ 32
  | .select a b c1 c2 =>
      if evalE val c2 ≤ evalE val c1 then evalE val a else evalE val b

/-- Structural size of a ciphertext expression; used to show that a
`select` node is never equal to one of its own operands. -/
def sizeE : EExpr → Nat
  | .leaf _ => 1
  | .select a b c1 c2 => sizeE a + sizeE b + sizeE c1 + sizeE c2 + 1

/-- One submitted bid (struct `Bid`). -/
structure Bid where
  encryptedBidAmount : EExpr
  encryptedAdQualityScore : EExpr
  bidder : Nat
deriving DecidableEq, Repr

/-- One auction batch (struct `AuctionBatch`). -/
structure AuctionBatch where
  batchId : Nat
  isOpen : Bool
  closeTimestamp : Nat
  bids : List Bid
deriving DecidableEq, Repr

/-- Zero-initialised mapping slot for `batches`. -/
def defaultBatch : AuctionBatch := ⟨0, false, 0, []⟩

/-- Per-request decryption context (struct `DecryptionContext`).
`stateHash` is the modelled keccak image: `none` is the zero slot,
`some cts` the hash of the ciphertext-handle list `cts`. -/
structure DecryptionContext where
  batchId : Nat
  stateHash : Option (List EExpr)
  processed : Bool
deriving DecidableEq, Repr

/-- Zero-initialised mapping slot for `decryptionContexts`. -/
def defaultCtx : DecryptionContext := ⟨0, none, false⟩

/-- The contract's custom errors, plus `OutOfBounds` for the Solidity
`Panic(0x32)` raised by indexing past the end of a storage array. -/
inductive Err : Type where
  | NotOwner
  | NotProvider
  | Paused
  | CooldownActive
  | BatchClosed
  | BatchFull
  | InvalidBatch
  | InvalidStateHash
  | ReplayDetected
  | InvalidProof
  | NoBids
  | NotEnoughBids
  | OutOfBounds
deriving DecidableEq, Repr

/-- Events emitted by the contract. -/
inductive Event : Type where
  | ownershipTransferred (previousOwner newOwner : Nat)
  | providerAdded (provider : Nat)
  | providerRemoved (provider : Nat)
  | contractPaused (account : Nat)
  | contractUnpaused (account : Nat)
  | cooldownSecondsUpdated (oldV newV : Nat)
  | batchOpened (batchId closeTimestamp : Nat)
  | batchClosed (batchId : Nat)
  | bidSubmitted (bidder batchId : Nat)
  | decryptionRequested (requestId batchId : Nat)
  | auctionSettled (batchId highestBidAmount highestBidder secondHighestBidAmount : Nat)
deriving DecidableEq, Repr

/-- Full storage of the contract. -/
structure CState where
  owner : Nat
  providers : Nat → Bool
  paused : Bool
  cooldownSeconds : Nat
  lastSubmissionTime : Nat → Nat
  lastDecryptionRequestTime : Nat → Nat
  batches : Nat → AuctionBatch
  decryptionContexts : Nat → DecryptionContext
  currentBatchId : Nat

/-- Pointwise update of a mapping. -/
def updF {α : Type} (f : Nat → α) (k : Nat) (v : α) : Nat → α :=
  fun x => if x = k then v else f x

/-- `MAX_BIDS_PER_BATCH`. -/
def MAX_BIDS_PER_BATCH : Nat := 100

/-- Result of one external call: a revert carries only the error, a
successful call carries the new storage and the emitted events. -/
abbrev CallResult := Except Err (CState × List Event)

/-- The running tournament accumulator of `requestAuctionSettlement`
(lines 167-188 of the contract). -/
structure TAcc where
  hi : EExpr
  se : EExpr
  hiB : Nat
  seB : Nat
deriving DecidableEq, Repr

/-- One iteration of the settlement tournament loop (lines 177-188):
`isCurrentHigher = ge(highest, bids[i].amount)`, then oblivious selects for
the amounts and cleartext branching for the bidder identities.  Note that
line 182 of the source uses `highestBidder` in *both* branches' data for
the new second bidder: `cc ? highestBidder : secondHighestBidder`. -/
def tournStep (val : Nat → Nat) (acc : TAcc) (b : Bid) : TAcc :=
  let a := b.encryptedBidAmount
  let cc : Bool := decide (evalE val a ≤ evalE val acc.hi)
  { hi := EExpr.select acc.hi a acc.hi a
    se := EExpr.select acc.se acc.hi acc.hi a
    hiB := if cc then acc.hiB else b.bidder
    seB := if cc then acc.hiB else acc.seB }

/-- The full tournament of `requestAuctionSettlement`: seed from the first
two bid slots (lines 172-175), fold the loop over the rest.  `none` when
the batch has fewer than two bids (the function reverts before reaching
the tournament in that case). -/
def settlementAcc (val : Nat → Nat) (bids : List Bid) : Option TAcc :=
  match bids.get? 0, bids.get? 1 with
  | some b0, some b1 =>
      some (List.foldl (tournStep val)
        ⟨b0.encryptedBidAmount, b1.encryptedBidAmount, b0.bidder, b1.bidder⟩
        (bids.drop 2))
  | _, _ => none

/-- The two commitment tokens exported for decryption, highest first
(lines 190-192). -/
def settlementCts (val : Nat → Nat) (bids : List Bid) : Option (List EExpr) :=
  (settlementAcc val bids).map (fun acc => [acc.hi, acc.se])

/-- Cleartexts the oracle would return for the two exported tokens:
the decryption of the first and second token. -/
def settlementDecrypted (val : Nat → Nat) (bids : List Bid) : Option (Nat × Nat) :=
  (settlementAcc val bids).map (fun acc => (evalE val acc.hi, evalE val acc.se))

/-- `abi.decode(cleartexts[k:k+32], (uint32))`, with the 32-byte word
modelled as a `Nat` truncated to 32 bits. -/
def decode32 (c : Nat) : Nat := c % 2 ^ 32

/-- `transferOwnership` (lines 88-92): `onlyOwner`. -/
def transferOwnership (sender newOwner : Nat) (s : CState) : CallResult :=
  if sender ≠ s.owner then .error .NotOwner
  else .ok ({ s with owner := newOwner },
    [.ownershipTransferred s.owner newOwner])

/-- `addProvider` (lines 94-97): `onlyOwner`. -/
def addProvider (sender p : Nat) (s : CState) : CallResult :=
  if sender ≠ s.owner then .error .NotOwner
  else .ok ({ s with providers := updF s.providers p true }, [.providerAdded p])

/-- `removeProvider` (lines 99-102): `onlyOwner`. -/
def removeProvider (sender p : Nat) (s : CState) : CallResult :=
  if sender ≠ s.owner then .error .NotOwner
  else .ok ({ s with providers := updF s.providers p false }, [.providerRemoved p])

/-- `setPaused` (lines 104-112): `onlyOwner`. -/
def setPaused (sender : Nat) (b : Bool) (s : CState) : CallResult :=
  if sender ≠ s.owner then .error .NotOwner
  else if b then .ok ({ s with paused := true }, [.contractPaused sender])
  else .ok ({ s with paused := false }, [.contractUnpaused sender])

/-- `setCooldownSeconds` (lines 114-118): `onlyOwner`. -/
def setCooldownSeconds (sender n : Nat) (s : CState) : CallResult :=
  if sender ≠ s.owner then .error .NotOwner
  else .ok ({ s with cooldownSeconds := n },
    [.cooldownSecondsUpdated s.cooldownSeconds n])

/-- `_openNewBatch` (lines 120-129): allocate `currentBatchId`, post-increment. -/
def openNewBatch (closeTs : Nat) (s : CState) : CState × List Event :=
  let batchId := s.currentBatchId
  ({ s with
      batches := updF s.batches batchId ⟨batchId, true, closeTs, []⟩
      currentBatchId := s.currentBatchId + 1 },
   [.batchOpened batchId closeTs])

/-- `openBatch` (lines 131-133): `onlyOwner whenNotPaused` (in that order). -/
def openBatch (sender closeTs : Nat) (s : CState) : CallResult :=
  if sender ≠ s.owner then .error .NotOwner
  else if s.paused then .error .Paused
  else .ok (openNewBatch closeTs s)

/-- `closeBatch` (lines 135-139): `onlyOwner whenNotPaused`, then
`InvalidBatch` for an unknown or already-closed id. -/
def closeBatch (sender batchId : Nat) (s : CState) : CallResult :=
  if sender ≠ s.owner then .error .NotOwner
  else if s.paused then .error .Paused
  else if s.currentBatchId ≤ batchId ∨ (s.batches batchId).isOpen = false then
    .error .InvalidBatch
  else
    .ok ({ s with
        batches := updF s.batches batchId
          ({ s.batches batchId with isOpen := false }) },
      [.batchClosed batchId])

/-- `submitBid` (lines 141-157): `onlyProvider whenNotPaused` (in that
order), then cooldown, then `BatchClosed` for unknown/closed batch, then
`BatchFull`, then append. -/
def submitBid (sender t batchId : Nat) (amt q : EExpr) (s : CState) : CallResult :=
  if s.providers sender = false then .error .NotProvider
  else if s.paused then .error .Paused
  else if t < s.lastSubmissionTime sender + s.cooldownSeconds then .error .CooldownActive
  else if s.currentBatchId ≤ batchId ∨ (s.batches batchId).isOpen = false then
    .error .BatchClosed
  else if MAX_BIDS_PER_BATCH ≤ (s.batches batchId).bids.length then .error .BatchFull
  else
    .ok ({ s with
        lastSubmissionTime := updF s.lastSubmissionTime sender t
        batches := updF s.batches batchId
          ({ s.batches batchId with
              bids := (s.batches batchId).bids ++ [⟨amt, q, sender⟩] }) },
      [.bidSubmitted sender batchId])

/-- `requestAuctionSettlement` (lines 159-202): `onlyOwner whenNotPaused`,
then `InvalidBatch` / `NoBids` / `NotEnoughBids` / `CooldownActive` in the
source order, then the tournament, the state hash of the two exported
tokens, and the new decryption context keyed by the oracle-chosen id. -/
def requestAuctionSettlement (val : Nat → Nat) (sender t batchId reqId : Nat)
    (s : CState) : CallResult :=
  if sender ≠ s.owner then .error .NotOwner
  else if s.paused then .error .Paused
  else if s.currentBatchId ≤ batchId ∨ (s.batches batchId).isOpen = true then
    .error .InvalidBatch
  else if (s.batches batchId).bids.length = 0 then .error .NoBids
  else if (s.batches batchId).bids.length < 2 then .error .NotEnoughBids
  else if t < s.lastDecryptionRequestTime sender + s.cooldownSeconds then
    .error .CooldownActive
  else
    match settlementCts val (s.batches batchId).bids with
    | some cts =>
        .ok ({ s with
            lastDecryptionRequestTime := updF s.lastDecryptionRequestTime sender t
            decryptionContexts := updF s.decryptionContexts reqId
              ⟨batchId, some cts, false⟩ },
          [.decryptionRequested reqId batchId])
    | none => .error .OutOfBounds

/-- `myCallback` (lines 204-222): no modifiers.  Replay check first, then
the current hash is recomputed from the batch's first two bid slots
(indexing them panics when absent), compared against the stored hash, then
`FHE.checkSignatures` (modelled by the boolean `sigOk`), then the decode
and the settlement event carrying `bids[0].bidder`. -/
def myCallback (r c0 c1 : Nat) (sigOk : Bool) (s : CState) : CallResult :=
  if (s.decryptionContexts r).processed then .error .ReplayDetected
  else
    match (s.batches (s.decryptionContexts r).batchId).bids.get? 0 with
    | none => .error .OutOfBounds
    | some b0 =>
      match (s.batches (s.decryptionContexts r).batchId).bids.get? 1 with
      | none => .error .OutOfBounds
      | some b1 =>
        if (some [b0.encryptedBidAmount, b1.encryptedBidAmount] : Option (List EExpr))
            ≠ (s.decryptionContexts r).stateHash then .error .InvalidStateHash
        else if sigOk = false then .error .InvalidProof
        else
          .ok ({ s with
              decryptionContexts := updF s.decryptionContexts r
                ({ s.decryptionContexts r with processed := true }) },
            [.auctionSettled (s.decryptionContexts r).batchId
              (decode32 c0) b0.bidder (decode32 c1)])

/-- State after the constructor (lines 80-86), deployed by `deployer` at
time `t0`: the deployer owns and provides, cooldown 30, batch 1 opened
with deadline `t0 + 1 days`, `currentBatchId` left at 2. -/
def initState (deployer t0 : Nat) : CState :=
  (openNewBatch (t0 + 86400)
    { owner := deployer
      providers := updF (fun _ => false) deployer true
      paused := false
      cooldownSeconds := 30
      lastSubmissionTime := fun _ => 0
      lastDecryptionRequestTime := fun _ => 0
      batches := fun _ => defaultBatch
      decryptionContexts := fun _ => defaultCtx
      currentBatchId := 1 }).1

/-- One external call with all of its inputs (caller, block timestamp
where read, arguments, and oracle-chosen data). -/
inductive Op : Type where
  | transferOwnership (sender newOwner : Nat)
  | addProvider (sender p : Nat)
  | removeProvider (sender p : Nat)
  | setPaused (sender : Nat) (b : Bool)
  | setCooldownSeconds (sender n : Nat)
  | openBatch (sender closeTs : Nat)
  | closeBatch (sender batchId : Nat)
  | submitBid (sender t batchId : Nat) (amt q : EExpr)
  | requestSettlement (sender t batchId reqId : Nat)
  | callback (r c0 c1 : Nat) (sigOk : Bool)

/-- Dispatch one external call. -/
def run (val : Nat → Nat) (op : Op) (s : CState) : CallResult :=
  match op with
  | .transferOwnership sender newOwner => transferOwnership sender newOwner s
  | .addProvider sender p => addProvider sender p s
  | .removeProvider sender p => removeProvider sender p s
  | .setPaused sender b => setPaused sender b s
  | .setCooldownSeconds sender n => setCooldownSeconds sender n s
  | .openBatch sender closeTs => openBatch sender closeTs s
  | .closeBatch sender batchId => closeBatch sender batchId s
  | .submitBid sender t batchId amt q => submitBid sender t batchId amt q s
  | .requestSettlement sender t batchId reqId =>
      requestAuctionSettlement val sender t batchId reqId s
  | .callback r c0 c1 sigOk => myCallback r c0 c1 sigOk s

/-- State and events after one call; a revert rolls everything back. -/
def stepEv (val : Nat → Nat) (op : Op) (s : CState) : CState × List Event :=
  match run val op s with
  | .ok p => p
  | .error _ => (s, [])

/-- State after one call. -/
def step (val : Nat → Nat) (op : Op) (s : CState) : CState :=
  (stepEv val op s).1

/-- State after a sequence of calls. -/
def execTrace (val : Nat → Nat) (ops : List Op) (s : CState) : CState :=
  ops.foldl (fun s op => step val op s) s

/-- A storage state reachable from some deployment by some call sequence. -/
def Reachable (val : Nat → Nat) (s : CState) : Prop :=
  ∃ deployer t0 ops, execTrace val ops (initState deployer t0) = s

/-- Error of a call result, if it reverted. -/
def errOf (r : CallResult) : Option Err :=
  match r with
  | .ok _ => none
  | .error e => some e

/-- Events of a call result, if it succeeded. -/
def evOf (r : CallResult) : Option (List Event) :=
  match r with
  | .ok p => some p.2
  | .error _ => none

/-- Whether a call succeeded. -/
def okOf (r : CallResult) : Bool :=
  match r with
  | .ok _ => true
  | .error _ => false

/-- Follows the spec's words ("the true maximum of the sequence"):
the maximum of a cleartext bid-amount sequence. -/
def specTrueMax (l : List Nat) : Nat := l.foldr max 0

/-- Follows the spec's words ("the true second-maximum"): the maximum of
the sequence after removing one occurrence of its maximum. -/
def specTrueSecondMax (l : List Nat) : Nat :=
  specTrueMax (l.erase (specTrueMax l))

/-- Concrete leaf valuation: handle 0 decrypts to 30, handle 1 to 10,
handle 2 to 20. -/
def val0 : Nat → Nat := fun i => [30, 10, 20].getD i 0

/-- Three bids with amounts 30, 10, 20 (in that submission order). -/
def bidsA : List Bid :=
  [⟨.leaf 0, .leaf 10, 100⟩, ⟨.leaf 1, .leaf 11, 101⟩, ⟨.leaf 2, .leaf 12, 102⟩]

/-- The same three bids submitted in the order 20, 30, 10. -/
def bidsB : List Bid :=
  [⟨.leaf 2, .leaf 12, 102⟩, ⟨.leaf 0, .leaf 10, 100⟩, ⟨.leaf 1, .leaf 11, 101⟩]

/-- Deploy, submit two bids (amounts 30 then 10) into batch 1, close it,
and request settlement under oracle request id 7. -/
def opsTwoBid : List Op :=
  [Op.submitBid 0 100 1 (.leaf 0) (.leaf 10),
   Op.submitBid 0 200 1 (.leaf 1) (.leaf 11),
   Op.closeBatch 0 1,
   Op.requestSettlement 0 400 1 7]

/-- State with a pending two-bid settlement request (id 7). -/
def twoBidRequestedState : CState := execTrace val0 opsTwoBid (initState 0 0)

/-- Deploy, submit three bids (amounts 30, 10, 20) into batch 1, close it. -/
def opsThreeBid : List Op :=
  [Op.submitBid 0 100 1 (.leaf 0) (.leaf 10),
   Op.submitBid 0 200 1 (.leaf 1) (.leaf 11),
   Op.submitBid 0 300 1 (.leaf 2) (.leaf 12),
   Op.closeBatch 0 1]

/-- State with the three-bid batch 1 closed, before any request. -/
def threeBidClosedState : CState := execTrace val0 opsThreeBid (initState 0 0)

/-- State right after a successful settlement request (id 7) on the
three-bid batch; nothing is mutated afterwards. -/
def threeBidRequestedState : CState :=
  step val0 (Op.requestSettlement 0 400 1 7) threeBidClosedState

/-- The two-bid pending-request state with the contract then paused. -/
def pausedPendingState : CState :=
  step val0 (Op.setPaused 0 true) twoBidRequestedState

/-- Freshly deployed contract, immediately paused by the owner. -/
def pausedOnlyState : CState := step val0 (Op.setPaused 0 true) (initState 0 0)

/-- The two-bid pending request settled by a first valid callback. -/
def settledState : CState := step val0 (Op.callback 7 30 10 true) twoBidRequestedState

/-- A state whose batch 1 is open and already holds `MAX_BIDS_PER_BATCH`
bids. -/
def fullBatchState : CState :=
  { initState 0 0 with
      batches := updF (initState 0 0).batches 1
        ⟨1, true, 86400, List.replicate 100 ⟨.leaf 0, .leaf 1, 3⟩⟩ }

/-- Storage invariant maintained by every reachable state: batch ids below
`currentBatchId` are the only allocated ones (id 0 is never issued), every
batch respects the capacity bound, and every decryption context that was
ever written points at a closed batch with at least two bids whose stored
state commitment is the hash of that batch's tournament output tokens. -/
structure ContractInv (val : Nat → Nat) (s : CState) : Prop where
  cbPos : 1 ≤ s.currentBatchId
  unknownDefault : ∀ b, s.currentBatchId ≤ b → s.batches b = defaultBatch
  batch0 : s.batches 0 = defaultBatch
  capacity : ∀ b, (s.batches b).bids.length ≤ MAX_BIDS_PER_BATCH
  ctxOK : ∀ r, (s.decryptionContexts r).stateHash ≠ none →
    (s.decryptionContexts r).batchId < s.currentBatchId ∧
    (s.batches (s.decryptionContexts r).batchId).isOpen = false ∧
    2 ≤ (s.batches (s.decryptionContexts r).batchId).bids.length ∧
    (s.decryptionContexts r).stateHash =
      settlementCts val (s.batches (s.decryptionContexts r).batchId).bids

theorem transferOwnership_ok {sender newOwner : Nat} {s s2 : CState} {ev : List Event}
    (h : transferOwnership sender newOwner s = .ok (s2, ev)) :
    s2 = { s with owner := newOwner } := by
  unfold transferOwnership at h
  split at h
  · cases h
  · cases h; rfl

theorem addProvider_ok {sender p : Nat} {s s2 : CState} {ev : List Event}
    (h : addProvider sender p s = .ok (s2, ev)) :
    s2 = { s with providers := updF s.providers p true } := by
  unfold addProvider at h
  split at h
  · cases h
  · cases h; rfl

theorem removeProvider_ok {sender p : Nat} {s s2 : CState} {ev : List Event}
    (h : removeProvider sender p s = .ok (s2, ev)) :
    s2 = { s with providers := updF s.providers p false } := by
  unfold removeProvider at h
  split at h
  · cases h
  · cases h
    rfl

theorem setPaused_ok {sender : Nat} {b : Bool} {s s2 : CState} {ev : List Event}
    (h : setPaused sender b s = .ok (s2, ev)) :
    s2 = { s with paused := b } := by
  unfold setPaused at h
  split at h
  · cases h
  split at h
  · cases h
    rename_i hb
    simp [hb]
  · cases h
    rename_i hb
    simp [Bool.not_eq_true] at hb
    simp [hb]

theorem setCooldownSeconds_ok {sender n : Nat} {s s2 : CState} {ev : List Event}
    (h : setCooldownSeconds sender n s = .ok (s2, ev)) :
    s2 = { s with cooldownSeconds := n } := by
  unfold setCooldownSeconds at h
  split at h
  · cases h
  · cases h; rfl

theorem openBatch_ok {sender closeTs : Nat} {s s2 : CState} {ev : List Event}
    (h : openBatch sender closeTs s = .ok (s2, ev)) :
    s.paused = false ∧
    s2 = { s with
      batches := updF s.batches s.currentBatchId
        ⟨s.currentBatchId, true, closeTs, []⟩
      currentBatchId := s.currentBatchId + 1 } := by
  unfold openBatch at h
  split at h
  · cases h
  split at h
  · cases h
  cases h
  rename_i h1 h2
  exact ⟨by simpa using h2, rfl⟩

theorem closeBatch_ok {sender batchId : Nat} {s s2 : CState} {ev : List Event}
    (h : closeBatch sender batchId s = .ok (s2, ev)) :
    s.paused = false ∧ batchId < s.currentBatchId ∧
    (s.batches batchId).isOpen = true ∧
    s2 = { s with
      batches := updF s.batches batchId
        ({ s.batches batchId with isOpen := false }) } := by
  unfold closeBatch at h
  split at h
  · cases h
  split at h
  · cases h
  split at h
  · cases h
  cases h
  rename_i h1 h2 h3
  push_neg at h3
  refine ⟨by simpa using h2, h3.1, ?_, rfl⟩
  simpa using h3.2

theorem submitBid_ok {sender t batchId : Nat} {amt q : EExpr} {s s2 : CState}
    {ev : List Event}
    (h : submitBid sender t batchId amt q s = .ok (s2, ev)) :
    s.providers sender = true ∧ s.paused = false ∧
    s.lastSubmissionTime sender + s.cooldownSeconds ≤ t ∧
    batchId < s.currentBatchId ∧ (s.batches batchId).isOpen = true ∧
    (s.batches batchId).bids.length < MAX_BIDS_PER_BATCH ∧
    s2 = { s with
      lastSubmissionTime := updF s.lastSubmissionTime sender t
      batches := updF s.batches batchId
        ({ s.batches batchId with
            bids := (s.batches batchId).bids ++ [⟨amt, q, sender⟩] }) } := by
  unfold submitBid at h
  split at h
  · cases h
  split at h
  · cases h
  split at h
  · cases h
  split at h
  · cases h
  split at h
  · cases h
  cases h
  rename_i h1 h2 h3 h4 h5
  refine ⟨?_, ?_, ?_, ?_, ?_, ?_, rfl⟩
  · simpa using h1
  · simpa using h2
  · omega
  · push_neg at h4
    exact h4.1
  · push_neg at h4
    simpa using h4.2
  · omega

theorem requestAuctionSettlement_ok {val : Nat → Nat} {sender t batchId reqId : Nat}
    {s s2 : CState} {ev : List Event}
    (h : requestAuctionSettlement val sender t batchId reqId s = .ok (s2, ev)) :
    sender = s.owner ∧ s.paused = false ∧ batchId < s.currentBatchId ∧
    (s.batches batchId).isOpen = false ∧
    2 ≤ (s.batches batchId).bids.length ∧
    s.lastDecryptionRequestTime sender + s.cooldownSeconds ≤ t ∧
    ∃ cts, settlementCts val (s.batches batchId).bids = some cts ∧
      s2 = { s with
        lastDecryptionRequestTime := updF s.lastDecryptionRequestTime sender t
        decryptionContexts := updF s.decryptionContexts reqId
          ⟨batchId, some cts, false⟩ } ∧
      ev = [.decryptionRequested reqId batchId] := by
  unfold requestAuctionSettlement at h
  split at h
  · cases h
  rename_i h1
  split at h
  · cases h
  rename_i h2
  split at h
  · cases h
  rename_i h3
  split at h
  · cases h
  rename_i h4
  split at h
  · cases h
  rename_i h5
  split at h
  · cases h
  rename_i h6
  split at h
  case _ cts hcts =>
    cases h
    push_neg at h1 h3
    refine ⟨h1, by simpa using h2, h3.1, by simpa using h3.2, by omega, by omega,
      cts, hcts, rfl, rfl⟩
  case _ => cases h

theorem myCallback_ok {r c0 c1 : Nat} {sigOk : Bool} {s s2 : CState} {ev : List Event}
    (h : myCallback r c0 c1 sigOk s = .ok (s2, ev)) :
    ∃ b0 b1,
      (s.decryptionContexts r).processed = false ∧
      (s.batches (s.decryptionContexts r).batchId).bids.get? 0 = some b0 ∧
      (s.batches (s.decryptionContexts r).batchId).bids.get? 1 = some b1 ∧
      (s.decryptionContexts r).stateHash
        = some [b0.encryptedBidAmount, b1.encryptedBidAmount] ∧
      sigOk = true ∧
      s2 = { s with
        decryptionContexts := updF s.decryptionContexts r
          ({ s.decryptionContexts r with processed := true }) } ∧
      ev = [.auctionSettled (s.decryptionContexts r).batchId
        (decode32 c0) b0.bidder (decode32 c1)] := by
  unfold myCallback at h
  by_cases hproc : (s.decryptionContexts r).processed = true
  · rw [if_pos hproc] at h; cases h
  rw [if_neg hproc] at h
  rcases hb0 : (s.batches (s.decryptionContexts r).batchId).bids.get? 0 with _ | b0
    <;> rw [hb0] at h
  · cases h
  rcases hb1 : (s.batches (s.decryptionContexts r).batchId).bids.get? 1 with _ | b1
    <;> rw [hb1] at h
  · cases h
  dsimp only at h
  by_cases hhash : (some [b0.encryptedBidAmount, b1.encryptedBidAmount] :
      Option (List EExpr)) ≠ (s.decryptionContexts r).stateHash
  · rw [if_pos hhash] at h; cases h
  rw [if_neg hhash] at h
  by_cases hsig : sigOk = false
  · rw [if_pos hsig] at h; cases h
  rw [if_neg hsig] at h
  cases h
  refine ⟨b0, b1, by simpa using hproc, rfl, rfl, (not_ne_iff.mp hhash).symm,
    by simpa using hsig, rfl, rfl⟩

theorem updF_ne {α : Type} (f : Nat → α) (k : Nat) (v : α) {x : Nat} (h : x ≠ k) :
    updF f k v x = f x := by
  simp [updF, h]

theorem updF_eq {α : Type} (f : Nat → α) (k : Nat) (v : α) : updF f k v k = v := by
  simp [updF]

theorem inv_init (val : Nat → Nat) (deployer t0 : Nat) :
    ContractInv val (initState deployer t0) := by
  refine ⟨?_, ?_, ?_, ?_, ?_⟩
  · exact Nat.le_succ 1
  · intro b hb
    have : b ≠ 1 := by
      simp only [initState, openNewBatch] at hb
      omega
    simp [initState, openNewBatch, updF_ne _ _ _ this]
  · have : (0 : Nat) ≠ 1 := by omega
    simp [initState, openNewBatch, updF_ne _ _ _ this]
  · intro b
    by_cases hb : b = 1
    · subst hb
      simp [initState, openNewBatch, updF_eq]
    · simp [initState, openNewBatch, updF_ne _ _ _ hb, defaultBatch, MAX_BIDS_PER_BATCH]
  · intro r hr
    exact absurd rfl hr

theorem inv_step {val : Nat → Nat} {s : CState} (op : Op) (hinv : ContractInv val s) :
    ContractInv val (step val op s) := by
  cases op with
  | transferOwnership sender newOwner =>
    simp only [step, stepEv, run]
    cases hrun : transferOwnership sender newOwner s with
    | error e => exact hinv
    | ok p =>
      obtain ⟨s2, ev⟩ := p
      have h2 := transferOwnership_ok hrun
      subst h2
      exact ⟨hinv.1, hinv.2, hinv.3, hinv.4, hinv.5⟩
  | addProvider sender pr =>
    simp only [step, stepEv, run]
    cases hrun : addProvider sender pr s with
    | error e => exact hinv
    | ok p =>
      obtain ⟨s2, ev⟩ := p
      have h2 := addProvider_ok hrun
      subst h2
      exact ⟨hinv.1, hinv.2, hinv.3, hinv.4, hinv.5⟩
  | removeProvider sender pr =>
    simp only [step, stepEv, run]
    cases hrun : removeProvider sender pr s with
    | error e => exact hinv
    | ok p =>
      obtain ⟨s2, ev⟩ := p
      have h2 := removeProvider_ok hrun
      subst h2
      exact ⟨hinv.1, hinv.2, hinv.3, hinv.4, hinv.5⟩
  | setPaused sender b =>
    simp only [step, stepEv, run]
    cases hrun : setPaused sender b s with
    | error e => exact hinv
    | ok p =>
      obtain ⟨s2, ev⟩ := p
      have h2 := setPaused_ok hrun
      subst h2
      exact ⟨hinv.1, hinv.2, hinv.3, hinv.4, hinv.5⟩
  | setCooldownSeconds sender n =>
    simp only [step, stepEv, run]
    cases hrun : setCooldownSeconds sender n s with
    | error e => exact hinv
    | ok p =>
      obtain ⟨s2, ev⟩ := p
      have h2 := setCooldownSeconds_ok hrun
      subst h2
      exact ⟨hinv.1, hinv.2, hinv.3, hinv.4, hinv.5⟩
  | openBatch sender closeTs =>
    simp only [step, stepEv, run]
    cases hrun : openBatch sender closeTs s with
    | error e => exact hinv
    | ok p =>
      obtain ⟨s2, ev⟩ := p
      obtain ⟨-, h2⟩ := openBatch_ok hrun
      subst h2
      dsimp only
      refine ⟨?_, ?_, ?_, ?_, ?_⟩
      · exact le_trans hinv.cbPos (Nat.le_succ _)
      · intro b hb
        simp only at hb ⊢
        rw [updF_ne _ _ _ (by omega : b ≠ s.currentBatchId)]
        exact hinv.unknownDefault b (by omega)
      · simp only
        rw [updF_ne _ _ _ (by have := hinv.cbPos; omega : (0 : Nat) ≠ s.currentBatchId)]
        exact hinv.batch0
      · intro b
        simp only
        by_cases hb : b = s.currentBatchId
        · subst hb
          rw [updF_eq]
          simp [MAX_BIDS_PER_BATCH]
        · rw [updF_ne _ _ _ hb]
          exact hinv.capacity b
      · intro r hr
        simp only at hr ⊢
        obtain ⟨h1, h2, h3, h4⟩ := hinv.ctxOK r hr
        refine ⟨by omega, ?_, ?_, ?_⟩ <;>
          rw [updF_ne _ _ _ (by omega : (s.decryptionContexts r).batchId ≠ s.currentBatchId)]
        · exact h2
        · exact h3
        · exact h4
  | closeBatch sender batchId =>
    simp only [step, stepEv, run]
    cases hrun : closeBatch sender batchId s with
    | error e => exact hinv
    | ok p =>
      obtain ⟨s2, ev⟩ := p
      obtain ⟨-, hlt, hopen, h2⟩ := closeBatch_ok hrun
      subst h2
      dsimp only
      have hb0 : batchId ≠ 0 := by
        intro h0
        rw [h0, hinv.batch0] at hopen
        simp [defaultBatch] at hopen
      refine ⟨hinv.cbPos, ?_, ?_, ?_, ?_⟩
      · intro b hb
        simp only at hb ⊢
        rw [updF_ne _ _ _ (by omega : b ≠ batchId)]
        exact hinv.unknownDefault b hb
      · simp only
        rw [updF_ne _ _ _ (by omega : (0 : Nat) ≠ batchId)]
        exact hinv.batch0
      · intro b
        simp only
        by_cases hb : b = batchId
        · subst hb
          rw [updF_eq]
          exact hinv.capacity b
        · rw [updF_ne _ _ _ hb]
          exact hinv.capacity b
      · intro r hr
        simp only at hr ⊢
        obtain ⟨h1, h2, h3, h4⟩ := hinv.ctxOK r hr
        have hne : (s.decryptionContexts r).batchId ≠ batchId := by
          intro he
          rw [he] at h2
          rw [h2] at hopen
          cases hopen
        rw [updF_ne _ _ _ hne]
        exact ⟨h1, h2, h3, h4⟩
  | submitBid sender t batchId amt q =>
    simp only [step, stepEv, run]
    cases hrun : submitBid sender t batchId amt q s with
    | error e => exact hinv
    | ok p =>
      obtain ⟨s2, ev⟩ := p
      obtain ⟨-, -, -, hlt, hopen, hlen, h2⟩ := submitBid_ok hrun
      subst h2
      dsimp only
      have hb0 : batchId ≠ 0 := by
        intro h0
        rw [h0, hinv.batch0] at hopen
        simp [defaultBatch] at hopen
      refine ⟨hinv.cbPos, ?_, ?_, ?_, ?_⟩
      · intro b hb
        simp only at hb ⊢
        rw [updF_ne _ _ _ (by omega : b ≠ batchId)]
        exact hinv.unknownDefault b hb
      · simp only
        rw [updF_ne _ _ _ (by omega : (0 : Nat) ≠ batchId)]
        exact hinv.batch0
      · intro b
        simp only
        by_cases hb : b = batchId
        · subst hb
          rw [updF_eq]
          simp only [List.length_append, List.length_cons, List.length_nil]
          have := hlen
          simp [MAX_BIDS_PER_BATCH] at this ⊢
          omega
        · rw [updF_ne _ _ _ hb]
          exact hinv.capacity b
      · intro r hr
        simp only at hr ⊢
        obtain ⟨h1, h2, h3, h4⟩ := hinv.ctxOK r hr
        have hne : (s.decryptionContexts r).batchId ≠ batchId := by
          intro he
          rw [he] at h2
          rw [h2] at hopen
          cases hopen
        rw [updF_ne _ _ _ hne]
        exact ⟨h1, h2, h3, h4⟩
  | requestSettlement sender t batchId reqId =>
    simp only [step, stepEv, run]
    cases hrun : requestAuctionSettlement val sender t batchId reqId s with
    | error e => exact hinv
    | ok p =>
      obtain ⟨s2, ev⟩ := p
      obtain ⟨-, -, hlt, hclosed, hlen, -, cts, hcts, h2, -⟩ :=
        requestAuctionSettlement_ok hrun
      subst h2
      dsimp only
      refine ⟨hinv.cbPos, hinv.unknownDefault, hinv.batch0, hinv.capacity, ?_⟩
      intro r hr
      simp only at hr ⊢
      by_cases he : r = reqId
      · subst he
        rw [updF_eq] at hr ⊢
        exact ⟨hlt, hclosed, hlen, hcts.symm⟩
      · rw [updF_ne _ _ _ he] at hr ⊢
        exact hinv.ctxOK r hr
  | callback r c0 c1 sigOk =>
    simp only [step, stepEv, run]
    cases hrun : myCallback r c0 c1 sigOk s with
    | error e => exact hinv
    | ok p =>
      obtain ⟨s2, ev⟩ := p
      obtain ⟨b0, b1, -, -, -, -, -, h2, -⟩ := myCallback_ok hrun
      subst h2
      dsimp only
      refine ⟨hinv.cbPos, hinv.unknownDefault, hinv.batch0, hinv.capacity, ?_⟩
      intro r' hr'
      simp only at hr' ⊢
      by_cases he : r' = r
      · subst he
        rw [updF_eq] at hr' ⊢
        exact hinv.ctxOK r' hr'
      · rw [updF_ne _ _ _ he] at hr' ⊢
        exact hinv.ctxOK r' hr'

theorem inv_execTrace {val : Nat → Nat} {s : CState} (ops : List Op)
    (hinv : ContractInv val s) : ContractInv val (execTrace val ops s) := by
  induction ops generalizing s with
  | nil => exact hinv
  | cons op ops ih =>
    unfold execTrace at ih ⊢
    rw [List.foldl_cons]
    exact ih (inv_step op hinv)

theorem reachable_inv {val : Nat → Nat} {s : CState} (h : Reachable val s) :
    ContractInv val s := by
  obtain ⟨deployer, t0, ops, heq⟩ := h
  subst heq
  exact inv_execTrace ops (inv_init val deployer t0)

theorem sizeE_tournStep_hi (val : Nat → Nat) (acc : TAcc) (x : Bid) :
    sizeE acc.hi < sizeE (tournStep val acc x).hi := by
  simp only [tournStep, sizeE]
  omega

theorem sizeE_foldl_hi (val : Nat → Nat) (l : List Bid) :
    ∀ acc : TAcc, sizeE acc.hi ≤ sizeE ((List.foldl (tournStep val) acc l).hi) := by
  induction l with
  | nil => intro acc; simp
  | cons x xs ih =>
    intro acc
    rw [List.foldl_cons]
    exact le_trans (le_of_lt (sizeE_tournStep_hi val acc x)) (ih _)

theorem foldl_hi_ne (val : Nat → Nat) {l : List Bid} (hl : l ≠ []) (acc : TAcc) :
    (List.foldl (tournStep val) acc l).hi ≠ acc.hi := by
  cases l with
  | nil => exact absurd rfl hl
  | cons x xs =>
    intro heq
    have h1 : sizeE acc.hi < sizeE ((tournStep val acc x).hi) :=
      sizeE_tournStep_hi val acc x
    have h2 := sizeE_foldl_hi val xs (tournStep val acc x)
    rw [List.foldl_cons] at heq
    rw [heq] at h2
    omega

theorem step_preserves_closed {val : Nat → Nat} {s : CState} {b : Nat} (op : Op)
    (hlt : b < s.currentBatchId) (hc : (s.batches b).isOpen = false) :
    b < (step val op s).currentBatchId ∧ ((step val op s).batches b).isOpen = false := by
  cases op with
  | transferOwnership sender newOwner =>
    simp only [step, stepEv, run]
    cases hrun : transferOwnership sender newOwner s with
    | error e => exact ⟨hlt, hc⟩
    | ok p =>
      obtain ⟨s2, ev⟩ := p
      have h2 := transferOwnership_ok hrun
      subst h2
      exact ⟨hlt, hc⟩
  | addProvider sender pr =>
    simp only [step, stepEv, run]
    cases hrun : addProvider sender pr s with
    | error e => exact ⟨hlt, hc⟩
    | ok p =>
      obtain ⟨s2, ev⟩ := p
      have h2 := addProvider_ok hrun
      subst h2
      exact ⟨hlt, hc⟩
  | removeProvider sender pr =>
    simp only [step, stepEv, run]
    cases hrun : removeProvider sender pr s with
    | error e => exact ⟨hlt, hc⟩
    | ok p =>
      obtain ⟨s2, ev⟩ := p
      have h2 := removeProvider_ok hrun
      subst h2
      exact ⟨hlt, hc⟩
  | setPaused sender bb =>
    simp only [step, stepEv, run]
    cases hrun : setPaused sender bb s with
    | error e => exact ⟨hlt, hc⟩
    | ok p =>
      obtain ⟨s2, ev⟩ := p
      have h2 := setPaused_ok hrun
      subst h2
      exact ⟨hlt, hc⟩
  | setCooldownSeconds sender n =>
    simp only [step, stepEv, run]
    cases hrun : setCooldownSeconds sender n s with
    | error e => exact ⟨hlt, hc⟩
    | ok p =>
      obtain ⟨s2, ev⟩ := p
      have h2 := setCooldownSeconds_ok hrun
      subst h2
      exact ⟨hlt, hc⟩
  | openBatch sender closeTs =>
    simp only [step, stepEv, run]
    cases hrun : openBatch sender closeTs s with
    | error e => exact ⟨hlt, hc⟩
    | ok p =>
      obtain ⟨s2, ev⟩ := p
      obtain ⟨-, h2⟩ := openBatch_ok hrun
      subst h2
      dsimp only
      refine ⟨by omega, ?_⟩
      rw [updF_ne _ _ _ (by omega : b ≠ s.currentBatchId)]
      exact hc
  | closeBatch sender batchId =>
    simp only [step, stepEv, run]
    cases hrun : closeBatch sender batchId s with
    | error e => exact ⟨hlt, hc⟩
    | ok p =>
      obtain ⟨s2, ev⟩ := p
      obtain ⟨-, hlt2, hopen, h2⟩ := closeBatch_ok hrun
      subst h2
      dsimp only
      refine ⟨hlt, ?_⟩
      by_cases hb : b = batchId
      · subst hb
        rw [updF_eq]
      · rw [updF_ne _ _ _ hb]
        exact hc
  | submitBid sender t batchId amt q =>
    simp only [step, stepEv, run]
    cases hrun : submitBid sender t batchId amt q s with
    | error e => exact ⟨hlt, hc⟩
    | ok p =>
      obtain ⟨s2, ev⟩ := p
      obtain ⟨-, -, -, hlt2, hopen, hlen, h2⟩ := submitBid_ok hrun
      subst h2
      dsimp only
      refine ⟨hlt, ?_⟩
      by_cases hb : b = batchId
      · subst hb
        rw [updF_eq]
        exact hc
      · rw [updF_ne _ _ _ hb]
        exact hc
  | requestSettlement sender t batchId reqId =>
    simp only [step, stepEv, run]
    cases hrun : requestAuctionSettlement val sender t batchId reqId s with
    | error e => exact ⟨hlt, hc⟩
    | ok p =>
      obtain ⟨s2, ev⟩ := p
      obtain ⟨-, -, -, -, -, -, cts, hcts, h2, -⟩ := requestAuctionSettlement_ok hrun
      subst h2
      exact ⟨hlt, hc⟩
  | callback r c0 c1 sigOk =>
    simp only [step, stepEv, run]
    cases hrun : myCallback r c0 c1 sigOk s with
    | error e => exact ⟨hlt, hc⟩
    | ok p =>
      obtain ⟨s2, ev⟩ := p
      obtain ⟨b0, b1, -, -, -, -, -, h2, -⟩ := myCallback_ok hrun
      subst h2
      exact ⟨hlt, hc⟩

theorem execTrace_preserves_closed {val : Nat → Nat} {s : CState} {b : Nat}
    (ops : List Op) (hlt : b < s.currentBatchId) (hc : (s.batches b).isOpen = false) :
    b < (execTrace val ops s).currentBatchId ∧
    ((execTrace val ops s).batches b).isOpen = false := by
  induction ops generalizing s with
  | nil => exact ⟨hlt, hc⟩
  | cons op ops ih =>
    unfold execTrace at ih ⊢
    rw [List.foldl_cons]
    obtain ⟨h1, h2⟩ := step_preserves_closed op hlt hc
    exact ih h1 h2

/-- Claim C1: the claim says the two commitment tokens exported by the settlement
tournament decrypt to the true maximum and true second-maximum of the
batch's bid amounts, invariant under submission order.  It fails on the
code: for the amounts [30, 10, 20] the exported tokens decrypt to
(30, 10) although the true pair is (30, 20) — the loop never promotes a
bid that loses against the running highest into second place — and the
permuted order [20, 30, 10] of the same amounts yields (20, 30), so the
result is not permutation-invariant either (the seed does not order the
first two slots). -/
theorem c1_tournament_wrong_second :
    bidsA.map (fun b => evalE val0 b.encryptedBidAmount) = [30, 10, 20] ∧
    specTrueMax [30, 10, 20] = 30 ∧
    specTrueSecondMax [30, 10, 20] = 20 ∧
    settlementDecrypted val0 bidsA = some (30, 10) ∧
    bidsB.map (fun b => evalE val0 b.encryptedBidAmount) = [20, 30, 10] ∧
    List.Perm bidsB bidsA ∧
    settlementDecrypted val0 bidsB = some (20, 30) := by
  decide

/-- Claim C2: the claim says that when no bid ciphertext is mutated between a
successful `requestSettlement` and the callback, the hash recomputed by
`myCallback` equals the stored `stateCommitment`.  It fails on the code:
the stored commitment hashes the two *tournament output* tokens, while the
callback rehashes the batch's first two *bid slots*; with three bids these
differ, so the callback reverts with `InvalidStateHash` although nothing
was mutated (the request call itself leaves the batch untouched). -/
theorem c2_hash_check_fails_without_mutation :
    okOf (run val0 (Op.requestSettlement 0 400 1 7) threeBidClosedState) = true ∧
    threeBidRequestedState.batches 1 = threeBidClosedState.batches 1 ∧
    errOf (myCallback 7 30 10 true threeBidRequestedState) = some Err.InvalidStateHash := by
  decide

/-- Claim C4, counterexample: with the contract paused and a pending settlement
request, the mutating decryption callback does not fail with `Paused`: it
succeeds and flips the context's `processed` flag (in the source,
`myCallback` carries no `whenNotPaused` modifier at all). -/
theorem c4_callback_succeeds_while_paused :
    pausedPendingState.paused = true ∧
    (pausedPendingState.decryptionContexts 7).processed = false ∧
    okOf (myCallback 7 30 10 true pausedPendingState) = true ∧
    ((step val0 (Op.callback 7 30 10 true) pausedPendingState).decryptionContexts 7).processed
      = true := by
  decide

/-- Claim C4 as amended: while `paused` is true the four batch/settlement
operations (`openBatch`, `closeBatch`, `submitBid`, `requestSettlement`)
fail with `Paused` for callers passing the role check, and a failing call
leaves the state unchanged; the owner-only admin setters and the
decryption callback are not pause-guarded. -/
theorem c4_pause_blocks_batch_operations (val : Nat → Nat) (s : CState)
    (sender t batchId reqId closeTs : Nat) (amt q : EExpr)
    (hp : s.paused = true) :
    (sender = s.owner → openBatch sender closeTs s = .error Err.Paused) ∧
    (sender = s.owner → closeBatch sender batchId s = .error Err.Paused) ∧
    (s.providers sender = true → submitBid sender t batchId amt q s = .error Err.Paused) ∧
    (sender = s.owner →
      requestAuctionSettlement val sender t batchId reqId s = .error Err.Paused) := by
  refine ⟨?_, ?_, ?_, ?_⟩
  · intro h
    simp [openBatch, h, hp]
  · intro h
    simp [closeBatch, h, hp]
  · intro h
    simp [submitBid, h, hp]
  · intro h
    simp [requestAuctionSettlement, h, hp]

theorem c4_pause_blocks_batch_operations_witness :
    openBatch 0 999 pausedOnlyState = .error Err.Paused :=
  (c4_pause_blocks_batch_operations val0 pausedOnlyState 0 0 1 7 999
    (.leaf 0) (.leaf 0) (by decide)).1 (by decide)

/-- Claim C5, counterexample: on a paused contract, a caller that fails the role
check receives `NotProvider` / `NotOwner`, not `Paused` — the Solidity
modifier order is `onlyProvider whenNotPaused` / `onlyOwner whenNotPaused`,
so the role check runs first, contradicting the claimed precedence of
`Paused` over the role errors. -/
theorem c5_role_error_preempts_paused :
    pausedOnlyState.paused = true ∧
    pausedOnlyState.providers 5 = false ∧
    errOf (submitBid 5 100 1 (EExpr.leaf 0) (EExpr.leaf 1) pausedOnlyState)
      = some Err.NotProvider ∧
    (5 : Nat) ≠ pausedOnlyState.owner ∧
    errOf (closeBatch 5 1 pausedOnlyState) = some Err.NotOwner := by
  decide

/-- Claim C5 as amended: the guard order on every mutating entry point is
role check, then pause check, then cooldown check: an unauthorized caller
gets `NotOwner`/`NotProvider` even when the contract is paused, and an
authorized caller on a paused contract gets `Paused` even when its
cooldown is also still active (`Paused` takes precedence over
`CooldownActive`, but not over the role errors). -/
theorem c5_guard_order (val : Nat → Nat) (s : CState)
    (sender t batchId reqId : Nat) (amt q : EExpr) :
    (s.providers sender = false →
      submitBid sender t batchId amt q s = .error Err.NotProvider) ∧
    (s.providers sender = true → s.paused = true →
      submitBid sender t batchId amt q s = .error Err.Paused) ∧
    (sender ≠ s.owner →
      requestAuctionSettlement val sender t batchId reqId s = .error Err.NotOwner) ∧
    (sender = s.owner → s.paused = true →
      requestAuctionSettlement val sender t batchId reqId s = .error Err.Paused) := by
  refine ⟨?_, ?_, ?_, ?_⟩
  · intro h
    simp [submitBid, h]
  · intro h1 h2
    simp [submitBid, h1, h2]
  · intro h
    simp [requestAuctionSettlement, h]
  · intro h1 h2
    simp [requestAuctionSettlement, h1, h2]

theorem c5_guard_order_witness :
    submitBid 6 100 1 (EExpr.leaf 0) (EExpr.leaf 1) pausedOnlyState
      = .error Err.NotProvider :=
  (c5_guard_order val0 pausedOnlyState 6 100 1 0 (.leaf 0) (.leaf 1)).1 (by decide)

/-- Claim C6: a callback on a request id whose context is already `processed`
fails with `ReplayDetected`, and every failing callback (whatever the
error) leaves the storage unchanged and emits no event. -/
theorem c6_replay_and_failure_atomicity (val : Nat → Nat) (s : CState)
    (r c0 c1 : Nat) (sig : Bool) :
    ((s.decryptionContexts r).processed = true →
      myCallback r c0 c1 sig s = .error Err.ReplayDetected) ∧
    (∀ e, myCallback r c0 c1 sig s = .error e →
      stepEv val (Op.callback r c0 c1 sig) s = (s, [])) := by
  constructor
  · intro h
    unfold myCallback
    rw [if_pos h]
  · intro e he
    simp only [stepEv, run]
    rw [he]

theorem c6_replay_and_failure_atomicity_witness :
    myCallback 7 0 0 true settledState = .error Err.ReplayDetected :=
  (c6_replay_and_failure_atomicity val0 settledState 7 0 0 true).1 (by decide)

/-- Claim C10: a callback for a request id whose context was never created does
not fail with any of the named errors: the zero-initialised context has
`processed = false` and `batchId = 0`, batch 0 is never allocated and has
no bids, so indexing its first bid slot aborts with the out-of-bounds
panic. -/
theorem c10_unknown_request_panics (val : Nat → Nat) (s : CState)
    (hreach : Reachable val s) (r c0 c1 : Nat) (sig : Bool)
    (hctx : s.decryptionContexts r = defaultCtx) :
    myCallback r c0 c1 sig s = .error Err.OutOfBounds := by
  have hinv := reachable_inv hreach
  unfold myCallback
  rw [hctx]
  simp [defaultCtx, hinv.batch0, defaultBatch]

theorem c10_unknown_request_panics_witness :
    myCallback 5 1 2 true (initState 0 0) = .error Err.OutOfBounds :=
  c10_unknown_request_panics val0 (initState 0 0) ⟨0, 0, [], rfl⟩ 5 1 2 true
    (by decide)

/-- Claim C7: for an owner call on an unpaused contract, `requestSettlement`
fails with `InvalidBatch` on an unknown or still-open batch, with `NoBids`
on a closed batch with 0 bids, with `NotEnoughBids` on exactly 1 bid (the
0-bid check runs before the 2-bid check), and with at least 2 bids and the
cooldown elapsed it succeeds, storing a context whose commitment covers
exactly 2 tokens. -/
theorem c7_request_settlement_guards (val : Nat → Nat) (s : CState)
    (sender t batchId reqId : Nat) (hown : sender = s.owner)
    (hp : s.paused = false) :
    (s.currentBatchId ≤ batchId ∨ (s.batches batchId).isOpen = true →
      requestAuctionSettlement val sender t batchId reqId s = .error Err.InvalidBatch) ∧
    (batchId < s.currentBatchId → (s.batches batchId).isOpen = false →
      (s.batches batchId).bids.length = 0 →
      requestAuctionSettlement val sender t batchId reqId s = .error Err.NoBids) ∧
    (batchId < s.currentBatchId → (s.batches batchId).isOpen = false →
      (s.batches batchId).bids.length = 1 →
      requestAuctionSettlement val sender t batchId reqId s = .error Err.NotEnoughBids) ∧
    (batchId < s.currentBatchId → (s.batches batchId).isOpen = false →
      2 ≤ (s.batches batchId).bids.length →
      s.lastDecryptionRequestTime sender + s.cooldownSeconds ≤ t →
      ∃ cts, settlementCts val (s.batches batchId).bids = some cts ∧
        cts.length = 2 ∧
        requestAuctionSettlement val sender t batchId reqId s =
          .ok ({ s with
              lastDecryptionRequestTime := updF s.lastDecryptionRequestTime sender t
              decryptionContexts := updF s.decryptionContexts reqId
                ⟨batchId, some cts, false⟩ },
            [.decryptionRequested reqId batchId])) := by
  refine ⟨?_, ?_, ?_, ?_⟩
  · intro h
    simp [requestAuctionSettlement, hown, hp, h]
  · intro h1 h2 h3
    have hb : ¬(s.currentBatchId ≤ batchId ∨ (s.batches batchId).isOpen = true) := by
      push_neg
      exact ⟨by omega, by simp [h2]⟩
    simp [requestAuctionSettlement, hown, hp, hb, h3]
  · intro h1 h2 h3
    have hb : ¬(s.currentBatchId ≤ batchId ∨ (s.batches batchId).isOpen = true) := by
      push_neg
      exact ⟨by omega, by simp [h2]⟩
    have h0 : ¬((s.batches batchId).bids.length = 0) := by omega
    have hlt2 : (s.batches batchId).bids.length < 2 := by omega
    simp [requestAuctionSettlement, hown, hp, hb, h0, hlt2]
  · intro h1 h2 h3 h4
    have hb : ¬(s.currentBatchId ≤ batchId ∨ (s.batches batchId).isOpen = true) := by
      push_neg
      exact ⟨by omega, by simp [h2]⟩
    have h0 : ¬((s.batches batchId).bids.length = 0) := by omega
    have hlt2 : ¬((s.batches batchId).bids.length < 2) := by omega
    have hcool : ¬(t < s.lastDecryptionRequestTime sender + s.cooldownSeconds) := by omega
    rcases hl : (s.batches batchId).bids with _ | ⟨b0, bs⟩
    · rw [hl] at h3
      simp at h3
    rcases hbs : bs with _ | ⟨b1, rest⟩
    · rw [hl, hbs] at h3
      simp at h3
    subst hbs
    refine ⟨[(List.foldl (tournStep val)
        ⟨b0.encryptedBidAmount, b1.encryptedBidAmount, b0.bidder, b1.bidder⟩ rest).hi,
      (List.foldl (tournStep val)
        ⟨b0.encryptedBidAmount, b1.encryptedBidAmount, b0.bidder, b1.bidder⟩ rest).se],
      ?_, rfl, ?_⟩
    · rfl
    · unfold requestAuctionSettlement
      rw [if_neg (not_ne_iff.mpr hown), if_neg (by simp [hp]), if_neg hb, if_neg h0,
        if_neg hlt2, if_neg hcool, hl]
      rfl

/-- Claim C8: in every reachable state no batch holds more than
`MAX_BIDS_PER_BATCH` bids, and a submit to an open batch already at
capacity (by a provider passing the pause and cooldown guards) fails with
`BatchFull`, appending nothing. -/
theorem c8_capacity_invariant (val : Nat → Nat) :
    (∀ s, Reachable val s → ∀ b, (s.batches b).bids.length ≤ MAX_BIDS_PER_BATCH) ∧
    (∀ s sender t batchId amt q, s.providers sender = true → s.paused = false →
      s.lastSubmissionTime sender + s.cooldownSeconds ≤ t →
      batchId < s.currentBatchId → (s.batches batchId).isOpen = true →
      MAX_BIDS_PER_BATCH ≤ (s.batches batchId).bids.length →
      submitBid sender t batchId amt q s = .error Err.BatchFull) := by
  constructor
  · intro s hreach b
    exact (reachable_inv hreach).capacity b
  · intro s sender t batchId amt q h1 h2 h3 h4 h5 h6
    have hne : ¬(s.providers sender = false) := by simp [h1]
    have hcool : ¬(t < s.lastSubmissionTime sender + s.cooldownSeconds) := by omega
    have hbc : ¬(s.currentBatchId ≤ batchId ∨ (s.batches batchId).isOpen = false) := by
      push_neg
      exact ⟨by omega, by simp [h5]⟩
    simp [submitBid, hne, h2, hcool, hbc, h6]

theorem c8_capacity_invariant_witness :
    ((initState 0 0).batches 1).bids.length ≤ MAX_BIDS_PER_BATCH ∧
    submitBid 0 50 1 (EExpr.leaf 0) (EExpr.leaf 1) fullBatchState
      = .error Err.BatchFull :=
  ⟨(c8_capacity_invariant val0).1 (initState 0 0) ⟨0, 0, [], rfl⟩ 1,
   (c8_capacity_invariant val0).2 fullBatchState 0 50 1 (.leaf 0) (.leaf 1)
     (by decide) (by decide) (by decide) (by decide) (by decide) (by decide)⟩

/-- Claim C9: the function closeBatch on an unknown or already-closed batch fails with
`InvalidBatch` (for an owner call on an unpaused contract); once a batch
is closed it stays closed under every later call sequence; and a submit
to a closed or unknown batch by a provider passing the pause and cooldown
guards fails with `BatchClosed`. -/
theorem c9_close_lifecycle (val : Nat → Nat) :
    (∀ s sender batchId, sender = s.owner → s.paused = false →
      (s.currentBatchId ≤ batchId ∨ (s.batches batchId).isOpen = false) →
      closeBatch sender batchId s = .error Err.InvalidBatch) ∧
    (∀ s batchId ops, batchId < s.currentBatchId →
      (s.batches batchId).isOpen = false →
      ((execTrace val ops s).batches batchId).isOpen = false) ∧
    (∀ s sender t batchId amt q, s.providers sender = true → s.paused = false →
      s.lastSubmissionTime sender + s.cooldownSeconds ≤ t →
      (s.currentBatchId ≤ batchId ∨ (s.batches batchId).isOpen = false) →
      submitBid sender t batchId amt q s = .error Err.BatchClosed) := by
  refine ⟨?_, ?_, ?_⟩
  · intro s sender batchId h1 h2 h3
    simp [closeBatch, h1, h2, h3]
  · intro s batchId ops hlt hc
    exact (execTrace_preserves_closed ops hlt hc).2
  · intro s sender t batchId amt q h1 h2 h3 h4
    have hne : ¬(s.providers sender = false) := by simp [h1]
    have hcool : ¬(t < s.lastSubmissionTime sender + s.cooldownSeconds) := by omega
    simp [submitBid, hne, h2, hcool, h4]

theorem c9_close_lifecycle_witness :
    errOf (closeBatch 0 1 twoBidRequestedState) = some Err.InvalidBatch ∧
    errOf (submitBid 0 500 1 (EExpr.leaf 5) (EExpr.leaf 6) twoBidRequestedState)
      = some Err.BatchClosed := by
  constructor
  · rw [(c9_close_lifecycle val0).1 twoBidRequestedState 0 1 (by decide) (by decide)
      (Or.inr (by decide))]
    rfl
  · rw [(c9_close_lifecycle val0).2.2 twoBidRequestedState 0 500 1 (.leaf 5) (.leaf 6)
      (by decide) (by decide) (by decide) (Or.inr (by decide))]
    rfl

theorem c7_request_settlement_guards_witness :
    requestAuctionSettlement val0 0 0 1 9 (initState 0 0) = .error Err.InvalidBatch ∧
    (∃ cts, settlementCts val0 ((threeBidClosedState.batches 1).bids) = some cts ∧
      cts.length = 2 ∧
      requestAuctionSettlement val0 0 400 1 9 threeBidClosedState =
        .ok ({ threeBidClosedState with
            lastDecryptionRequestTime :=
              updF threeBidClosedState.lastDecryptionRequestTime 0 400
            decryptionContexts := updF threeBidClosedState.decryptionContexts 9
              ⟨1, some cts, false⟩ },
          [.decryptionRequested 9 1])) :=
  ⟨(c7_request_settlement_guards val0 (initState 0 0) 0 0 1 9 rfl rfl).1
      (Or.inr (by decide)),
   (c7_request_settlement_guards val0 threeBidClosedState 0 400 1 9 (by decide)
      (by decide)).2.2.2 (by decide) (by decide) (by decide) (by decide)⟩

/-- Claim C3: on every reachable state, a first callback that passes all checks
emits exactly one settlement event carrying the context's batch id, the
two decoded cleartext amounts, and — as the highest bidder — the bidder of
the batch's first bid slot, which coincides with the highest bidder
tracked by the settlement tournament for that batch (a valid callback
forces the batch to have exactly two bids, where the tournament's tracked
highest bidder is the first slot's bidder). -/
theorem c3_settlement_event_fields (val : Nat → Nat) (s : CState)
    (hreach : Reachable val s) (r c0 c1 : Nat) (sig : Bool)
    (hok : okOf (myCallback r c0 c1 sig s) = true) :
    ∃ b0,
      (s.batches (s.decryptionContexts r).batchId).bids.get? 0 = some b0 ∧
      evOf (myCallback r c0 c1 sig s) =
        some [Event.auctionSettled (s.decryptionContexts r).batchId
          (decode32 c0) b0.bidder (decode32 c1)] ∧
      ∃ acc, settlementAcc val (s.batches (s.decryptionContexts r).batchId).bids
          = some acc ∧
        b0.bidder = acc.hiB := by
  have hinv := reachable_inv hreach
  cases hrun : myCallback r c0 c1 sig s with
  | error e =>
    rw [hrun] at hok
    simp [okOf] at hok
  | ok p =>
    obtain ⟨s2, ev⟩ := p
    obtain ⟨b0, b1, hproc, hb0, hb1, hhash, hsig, hs2, hev⟩ := myCallback_ok hrun
    have hne : (s.decryptionContexts r).stateHash ≠ none := by
      rw [hhash]
      simp
    obtain ⟨hlt, hclosed, hlen, hcts⟩ := hinv.ctxOK r hne
    rw [hhash] at hcts
    refine ⟨b0, hb0, ?_, ?_⟩
    · rw [hev]
      rfl
    · rcases hl : (s.batches (s.decryptionContexts r).batchId).bids with _ | ⟨x0, xs⟩
      · rw [hl] at hb0
        cases hb0
      rcases hxs : xs with _ | ⟨x1, rest⟩
      · subst hxs
        rw [hl] at hb1
        cases hb1
      subst hxs
      rw [hl] at hb0 hb1 hcts
      have hx0 : x0 = b0 := by simpa using hb0
      have hx1 : x1 = b1 := by simpa using hb1
      rw [hx0, hx1] at hcts ⊢
      simp only [settlementCts, settlementAcc, List.get?, List.drop,
        Option.map_some', Option.some.injEq, List.cons.injEq, and_true] at hcts
      rcases rest with _ | ⟨d, ds⟩
      · exact ⟨⟨b0.encryptedBidAmount, b1.encryptedBidAmount, b0.bidder, b1.bidder⟩,
          rfl, rfl⟩
      · exfalso
        exact foldl_hi_ne val (by simp)
          ⟨b0.encryptedBidAmount, b1.encryptedBidAmount, b0.bidder, b1.bidder⟩
          hcts.1.symm

theorem c3_settlement_event_fields_witness :
    ∃ b0,
      (twoBidRequestedState.batches
        (twoBidRequestedState.decryptionContexts 7).batchId).bids.get? 0 = some b0 ∧
      evOf (myCallback 7 30 10 true twoBidRequestedState) =
        some [Event.auctionSettled (twoBidRequestedState.decryptionContexts 7).batchId
          (decode32 30) b0.bidder (decode32 10)] ∧
      ∃ acc, settlementAcc val0
          (twoBidRequestedState.batches
            (twoBidRequestedState.decryptionContexts 7).batchId).bids = some acc ∧
        b0.bidder = acc.hiB :=
  c3_settlement_event_fields val0 twoBidRequestedState ⟨0, 0, opsTwoBid, rfl⟩
    7 30 10 true (by decide)
